import Mathlib

/-!
Verification of the dht-crawler DHT node against its specification.

The Go source is embedded shallowly: maps become association lists or
functional maps, `interface{}` values become a tagged sum, type
assertions become `Except` (a failing assertion is a Go panic), and the
concurrent drivers become explicit sequential state-passing functions.
Components whose implementation files are not part of the source tree
(syncedMap, keyedDeque, bitmap, blackList, int2bytes, the `dht` struct)
are modelled from the specification; each such definition says so in its
doc comment.
-/

namespace DhtCrawler

/-! ## Remote addresses

`*net.UDPAddr` is modelled by its observable parts: `addr.IP.String()`
and `addr.Port`.  `addrString` is `addr.String()` (`"ip:port"`). -/

structure UDPAddr where
  ip : String
  port : Int
  deriving DecidableEq, Repr

def UDPAddr.addrString (a : UDPAddr) : String :=
  a.ip ++ ":" ++ toString a.port

/-! ## Token manager (krpc.go)

`tokenManager` embeds a `syncedMap` keyed by `addr.IP.String()`.
Modelled from the spec: `syncedMap` (its code is not under src/) is a
plain map; we use an association list with `Get`/`Set`/`Delete`.
Only the token's `data` field matters to `check` (the `createTime`
field is read only by `token` and the sweeper), so the map stores the
data string. -/

structure TokenManager where
  tokens : List (String × String)
  deriving Repr

def TokenManager.Get (tm : TokenManager) (key : String) : Option String :=
  tm.tokens.lookup key

def TokenManager.Delete (tm : TokenManager) (key : String) : TokenManager :=
  ⟨tm.tokens.filter (fun p => p.1 ≠ key)⟩

def TokenManager.Set (tm : TokenManager) (key : String) (data : String) :
    TokenManager :=
  ⟨(key, data) :: tm.tokens.filter (fun p => p.1 ≠ key)⟩

/-- `tokenManager.check` from krpc.go:79-89: look the IP up; if an entry
exists it is deleted unconditionally; the result is `ok && tokenString ==
tk.data` (where `tk` is the zero token when the lookup failed). -/
def TokenManager.check (tm : TokenManager) (addr : UDPAddr)
    (tokenString : String) : TokenManager × Bool :=
  let key := addr.ip
  let v := tm.Get key
  let tk := v.getD ""
  let tm' := if v.isSome then tm.Delete key else tm
  (tm', v.isSome && tokenString == tk)

/-- Concrete token-manager state used by witnesses. -/
def tmSample : TokenManager := ⟨[("1.2.3.4", "tok")]⟩

/-- Concrete remote address used by witnesses. -/
def addrSample : UDPAddr := ⟨"1.2.3.4", 6881⟩

/-! ## Bencoded / decoded values

The bencode decoder (its code is not under src/) yields Go values of
dynamic type int / string / list / map.  Modelled from the spec
(§4.1: "Decoder yields a generic value variant {int, bytes, list,
dict}"); this is the value type flowing through `parseMessage`,
`ParseKey` and the handlers. -/

inductive BVal where
  | int (n : Int)
  | str (s : String)
  | list (l : List BVal)
  | dict (d : List (String × BVal))

/-- A failed Go type assertion (`v.(T)` on a value that is not a `T`,
including a nil interface) aborts the goroutine: there is no `recover`
anywhere in the program, so the process crashes. -/
inductive GoPanic where
  | interfaceConversion
  deriving DecidableEq, Repr

/-- Go `v.(string)` on an `interface{}` holding a decoded value. -/
def goAssertStr : Option BVal → Except GoPanic String
  | some (.str s) => .ok s
  | _ => .error .interfaceConversion

/-- Go `v.(int)` on an `interface{}` holding a decoded value. -/
def goAssertInt : Option BVal → Except GoPanic Int
  | some (.int n) => .ok n
  | _ => .error .interfaceConversion

/-! ## KRPC error codes (krpc.go:10-15) -/

def generalError : Int := 201
def serverError : Int := 202
def protocolError : Int := 203
def unknownError : Int := 204

/-! ## DHT payload types (src/unnamed/part_001, part_004) -/

/-- `DHTQuery` from part_001: `DHTQueryType` is a string-backed type. -/
structure DHTQuery where
  TransactionID : String
  QueryType : String
  Arguments : List (String × BVal)

/-- `DHTQuery.ToPayload` from part_001:84-91. -/
def DHTQuery.ToPayload (q : DHTQuery) : List (String × BVal) :=
  [("t", .str q.TransactionID), ("y", .str "q"),
   ("q", .str q.QueryType), ("a", .dict q.Arguments)]

/-- `NewDHTQueryFromPayload` from part_001:101-108.  `payload["a"]` uses
the comma-ok form (a non-dict yields the nil map), but `payload["t"]` and
`payload["q"]` are unchecked assertions that panic when the field is
absent or not a string.  Struct-literal fields are evaluated in source
order: `t` before `q`. -/
def NewDHTQueryFromPayload (payload : List (String × BVal)) :
    Except GoPanic DHTQuery := do
  let args := match payload.lookup "a" with
    | some (.dict d) => d
    | _ => []
  let t ← goAssertStr (payload.lookup "t")
  let q ← goAssertStr (payload.lookup "q")
  return ⟨t, q, args⟩

structure DHTErrorResponse where
  TransactionID : String
  ErrorCode : Int
  ErrorMessage : String

/-- `DHTErrorResponse.ToPayload` from part_004:9-15. -/
def DHTErrorResponse.ToPayload (r : DHTErrorResponse) :
    List (String × BVal) :=
  [("t", .str r.TransactionID), ("y", .str "e"),
   ("e", .list [.int r.ErrorCode, .str r.ErrorMessage])]

structure DHTQueryResponse where
  TransactionID : String
  Arguments : List (String × BVal)

/-- `DHTQueryResponse.ToPayload` from part_004:30-36, verbatim: the
response arguments are emitted under key `"e"`. -/
def DHTQueryResponse.ToPayload (r : DHTQueryResponse) :
    List (String × BVal) :=
  [("t", .str r.TransactionID), ("y", .str "r"),
   ("e", .dict r.Arguments)]

/-! ## ParseKey / ParseKeys (krpc.go:104-139) -/

/-- `ParseKey` from krpc.go:104-128.  The `default: panic` arm is
unreachable — every call site passes one of the four literals — and is
modelled as an error. -/
def ParseKey (data : List (String × BVal)) (key : String) (t : String) :
    Except String Unit :=
  match data.lookup key with
  | none => .error "lack of key"
  | some val =>
    let ok : Bool :=
      match t with
      | "string" => match val with | .str _ => true | _ => false
      | "int" => match val with | .int _ => true | _ => false
      | "map" => match val with | .dict _ => true | _ => false
      | "list" => match val with | .list _ => true | _ => false
      | _ => false
    if ok then .ok () else .error "invalid key type"

/-- `ParseKeys` from krpc.go:131-139. -/
def ParseKeys (data : List (String × BVal)) (pairs : List (String × String)) :
    Except String Unit :=
  match pairs with
  | [] => .ok ()
  | (key, t) :: rest =>
    match ParseKey data key t with
    | .error e => .error e
    | .ok _ => ParseKeys data rest

/-! ## Blacklist

Modelled from the spec (§4.4; the blackList code is not under src/):
`insert(ip,port)` records the pair (port −1 is the wildcard);
`in(ip,port)` is true when an exact entry or a wildcard entry for the ip
exists.  The size bound and eviction do not affect the claims and are
omitted. -/

structure Blacklist where
  entries : List (String × Int)
  deriving DecidableEq, Repr

def Blacklist.insert (bl : Blacklist) (ip : String) (port : Int) :
    Blacklist :=
  ⟨(ip, port) :: bl.entries⟩

def Blacklist.isIn (bl : Blacklist) (ip : String) (port : Int) : Bool :=
  bl.entries.any (fun e => e.1 = ip ∧ (e.2 = port ∨ e.2 = -1))

/-! ## The request dispatcher's validation phase (krpc.go:158-189)

The world visible to this part of `handleRequest`: the routing table is
consulted through its `cachedNodes` cache (`GetNodeByAddress`,
krpc.go:386-395, reads only `cachedNodes`; `RemoveByAddr` removes the
node and drops the cache entry).  We record the cache as an association
list address ↦ node id (raw 20-byte string); the bucket-level structure
of the table is modelled separately for the routing-table claims. -/

structure World where
  localID : String
  isCrawl : Bool
  cachedNodes : List (String × String)
  blackList : Blacklist
  tokens : TokenManager
  peers : List (String × List (String × Int × String))

/-- A message passed to `send` (krpc.go:92-100): either an error
response (`NewDHTErrorResponse`) or a query response
(`NewDHTQueryResponse`).  UDP write failures are environment behavior
outside these claims; `send` is modelled as recording the message. -/
inductive Sent where
  | errorResp (transID : String) (code : Int) (msg : String)
  | queryResp (transID : String) (args : List (String × BVal))

/-- `routingTable.RemoveByAddr` projected onto the `cachedNodes` cache:
the entry for the address disappears (routingtable.go:397-412). -/
def removeCachedByAddr (cached : List (String × String)) (address : String) :
    List (String × String) :=
  cached.filter (fun p => p.1 ≠ address)

/-- The validation phase of `handleRequest` (krpc.go:158-189): build the
query from the payload (may panic), check `q`/`a`, check `a.id`, drop
self, check the id length, and evict-and-blacklist on an address already
bound to a different id.  Returns the updated world, the messages sent,
and `some (q, id)` when control reaches the `switch`. -/
def handleRequestChecks (w : World) (addr : UDPAddr)
    (payload : List (String × BVal)) :
    Except GoPanic (World × List Sent × Option (DHTQuery × String)) := do
  let q ← NewDHTQueryFromPayload payload
  match ParseKeys payload [("q", "string"), ("a", "map")] with
  | .error e =>
    return (w, [.errorResp q.TransactionID protocolError e], none)
  | .ok _ =>
  match ParseKey q.Arguments "id" "string" with
  | .error e =>
    return (w, [.errorResp q.TransactionID protocolError e], none)
  | .ok _ => do
  let id ← goAssertStr (q.Arguments.lookup "id")
  if id = w.localID then
    return (w, [], none)
  else if id.length ≠ 20 then
    return (w, [.errorResp q.TransactionID protocolError "invalid id"], none)
  else
    match w.cachedNodes.lookup addr.addrString with
    | some boundId =>
      if boundId ≠ id then
        let w' : World :=
          { w with blackList := w.blackList.insert addr.ip addr.port,
                   cachedNodes := removeCachedByAddr w.cachedNodes
                     addr.addrString }
        return (w', [.errorResp q.TransactionID protocolError "invalid id"],
          none)
      else
        return (w, [], some (q, id))
    | none =>
      return (w, [], some (q, id))

/-- `dht.id(target)` — Modelled from the spec (§4.12; the `dht` struct's
file is not under src/): crawl mode mixes the first 15 bytes of the
local id with the last 5 bytes of the target; standard mode returns the
local id. -/
def dhtID (w : World) (target : String) : String :=
  if w.isCrawl then
    w.localID.take 15 ++ target.drop (target.length - 5)
  else
    w.localID

/-- `peersManager.Insert` — the `keyedDeque` code is not under src/;
modelled from the spec (§4.6): dedupe by the peer's compact endpoint,
newest at the back, drop the front when the bound K is exceeded. -/
def peersInsert (peers : List (String × Int × String))
    (p : String × Int × String) (K : Nat) :
    List (String × Int × String) :=
  let l := peers.filter (fun x => ¬(x.1 = p.1 ∧ x.2.1 = p.2.1)) ++ [p]
  if l.length > K then l.drop (l.length - K) else l

/-- The `announce_peer` arm of `handleRequest`'s switch
(krpc.go:271-307).  `id` is the requester id extracted by the
validation phase.  `implied_port`, when present, is read with an
unchecked `.(int)` assertion. -/
def announcePeerCase (w : World) (addr : UDPAddr) (q : DHTQuery)
    (id : String) (K : Nat) : Except GoPanic (World × List Sent) := do
  match ParseKeys q.Arguments
      [("info_hash", "string"), ("port", "int"), ("token", "string")] with
  | .error e =>
    return (w, [.errorResp q.TransactionID protocolError e])
  | .ok _ => do
  let infoHash ← goAssertStr (q.Arguments.lookup "info_hash")
  let port ← goAssertInt (q.Arguments.lookup "port")
  let token ← goAssertStr (q.Arguments.lookup "token")
  let (tm', okTok) := w.tokens.check addr token
  let w := { w with tokens := tm' }
  if !okTok then
    return (w, [])
  else do
    let port ←
      match q.Arguments.lookup "implied_port" with
      | some v => do
        let ip ← goAssertInt (some v)
        pure (if ip ≠ 0 then addr.port else port)
      | none => pure port
    if !w.isCrawl then
      let peersFor := (w.peers.lookup infoHash).getD []
      let w' : World :=
        { w with peers := (infoHash,
            peersInsert peersFor (addr.ip, port, token) K) ::
              w.peers.filter (fun x => x.1 ≠ infoHash) }
      return (w', [.queryResp q.TransactionID [("id", .str (dhtID w id))]])
    else
      return (w, [])

/-- Sample 20-byte ids for concrete inputs. -/
def idX : String := "XXXXXXXXXXXXXXXXXXXX"
def idY : String := "YYYYYYYYYYYYYYYYYYYY"
def idL : String := "LLLLLLLLLLLLLLLLLLLL"

/-- Concrete world used by counterexamples and witnesses. -/
def wSample : World :=
  { localID := idL
    isCrawl := true
    cachedNodes := [("203.0.113.9:6881", idX)]
    blackList := ⟨[]⟩
    tokens := tmSample
    peers := [] }

/-- The remote whose address is already bound to `idX`. -/
def addrBound : UDPAddr := ⟨"203.0.113.9", 6881⟩

/-- A well-formed ping payload claiming id `idY` from `addrBound`. -/
def plPingY : List (String × BVal) :=
  [("t", .str "aa"), ("y", .str "q"), ("q", .str "ping"),
   ("a", .dict [("id", .str idY)])]

/-- A request payload whose `a` field is mis-typed (a string). -/
def plBadA : List (String × BVal) :=
  [("t", .str "aa"), ("y", .str "q"), ("q", .str "ping"),
   ("a", .str "oops")]

/-- A request payload with no `q` field at all. -/
def plNoQ : List (String × BVal) :=
  [("t", .str "aa"), ("y", .str "q"),
   ("a", .dict [("id", .str idY)])]

/-- An `announce_peer` query whose `implied_port` is a string. -/
def qImpliedStr : DHTQuery :=
  ⟨"aa", "announce_peer",
   [("info_hash", .str idX), ("port", .int 6882), ("token", .str "tok"),
    ("implied_port", .str "oops")]⟩

/-- The world after the id-mismatch branch runs on `wSample`/`addrBound`:
the exact endpoint is blacklisted and the cache entry is gone. -/
def wAfterMismatch : World :=
  { wSample with blackList := ⟨[("203.0.113.9", 6881)]⟩, cachedNodes := [] }

/-! ## Top-k neighbor search (routingtable.go:453-518)

Node ids are 160-bit values, modelled as `Nat`.  `bitmap.Xor` is bitwise
xor and `distance.Compare(other, 160) == 1` is unsigned big-endian
comparison of the full values, i.e. `>` on `Nat`.  (Modelled from the
spec §3/§4.2: the bitmap code is not under src/; "ordering for XOR
distances is unsigned big-endian".) -/

/-- Entry of the `cachedNodes` snapshot fed to `getTopK`: id and the
address that keys the cache. -/
structure CNode where
  id : Nat
  addr : String
  deriving DecidableEq, Repr

/-- Item of `topKHeap` (routingtable.go:454-457). -/
structure HeapItem where
  distance : Nat
  value : CNode
  deriving DecidableEq, Repr

/-- Zero `heapItem`, used only as the out-of-range fallback of total
array reads (Go indexing in range never sees it). -/
def hDefault : HeapItem := ⟨0, ⟨0, ""⟩⟩

/-- `topKHeap.Less i j` (routingtable.go:465-467): true when item i's
distance is the greater one (`Compare == 1`), so `container/heap`
maintains a max-heap with the largest distance at the root. -/
def hLess (a : Array HeapItem) (i j : Nat) : Bool :=
  (a.getD i hDefault).distance > (a.getD j hDefault).distance

/-- In-range array swap (`h.Swap` of the Go heap interface). -/
def hSwap (a : Array HeapItem) (i j : Nat) : Array HeapItem :=
  let vi := a.getD i hDefault
  let vj := a.getD j hDefault
  (a.set! i vj).set! j vi

/-- Sift-up loop `up` of Go `container/heap`, fuel-bounded (the fuel is
never exhausted for fuel ≥ array size). -/
def heapUp : Nat → Array HeapItem → Nat → Array HeapItem
  | 0, a, _ => a
  | fuel+1, a, j =>
    let i := (j - 1) / 2
    if i = j ∨ hLess a j i = false then a
    else heapUp fuel (hSwap a i j) i

/-- Sift-down loop `down` of Go `container/heap`, fuel-bounded. -/
def heapDown : Nat → Array HeapItem → Nat → Nat → Array HeapItem
  | 0, a, _, _ => a
  | fuel+1, a, i, n =>
    let j1 := 2*i + 1
    if n ≤ j1 then a
    else
      let j := if j1 + 1 < n ∧ hLess a (j1+1) j1 then j1 + 1 else j1
      if hLess a j i = false then a
      else heapDown fuel (hSwap a i j) j n

/-- Go `heap.Push`: append (`topKHeap.Push`) then sift up. -/
def heapPushGo (a : Array HeapItem) (x : HeapItem) : Array HeapItem :=
  let a := a.push x
  heapUp a.size a (a.size - 1)

/-- Go `heap.Pop`: swap the root to the end, sift down the shortened
range, then remove and return the last slot (`topKHeap.Pop`). -/
def heapPopGo (a : Array HeapItem) : HeapItem × Array HeapItem :=
  let n := a.size - 1
  let a := heapDown a.size (hSwap a 0 n) 0 n
  (a.getD (a.size - 1) hDefault, a.pop)

/-- Drain loop of `getTopK` (routingtable.go:512-515): `tops[i] =
heap.Pop` for i from the top index down, so the result list is the
reverse of pop order. -/
def heapDrain : Nat → Array HeapItem → List CNode
  | 0, _ => []
  | fuel+1, a =>
    if a.size = 0 then []
    else
      let (x, a') := heapPopGo a
      x.value :: heapDrain fuel a'

/-- Function `getTopK` (routingtable.go:487-518), verbatim: when the
heap is full the candidate is compared against `topkHeap[len-1]` — the
last slice element, an arbitrary leaf of the max-heap, not the root —
and admitted (push then pop) only when its distance is below that leaf's
distance. -/
def getTopK (queue : List CNode) (id : Nat) (k : Nat) : List CNode :=
  let hp := List.foldl (fun (hp : Array HeapItem) (nd : CNode) =>
    let distance := Nat.xor id nd.id
    if hp.size = k then
      let last := hp.getD (hp.size - 1) hDefault
      if last.distance > distance then
        (heapPopGo (heapPushGo hp ⟨distance, nd⟩)).2
      else hp
    else heapPushGo hp ⟨distance, nd⟩) #[] queue
  (heapDrain hp.size hp).reverse

/-- Method `routingTable.GetNeighbors` (routingtable.go:331-346): the
snapshot of `cachedNodes` values is handed to `getTopK`. -/
def GetNeighbors (cachedNodes : List CNode) (id : Nat) (size : Nat) :
    List CNode :=
  getTopK cachedNodes id size

/-- Concrete nodes at XOR distances 5, 1, 3 from target id 0. -/
def cnA : CNode := ⟨5, "a"⟩
def cnB : CNode := ⟨1, "b"⟩
def cnC : CNode := ⟨3, "c"⟩

/-! ## Transaction manager (transaction_manager.go, second variant)

The two `sync.Map`s are modelled as functional maps.  Transaction ids
come from `genTransID`: `int2bytes` (not under src/) is, per the spec
(§4.10 "minimal big-endian encoding of a monotonic counter"), injective
on counter values, so the model keys transactions by the counter value
itself. -/

/-- Live-transaction record: the pieces read by the two indexes. -/
structure TransRec where
  id : Nat
  queryType : String
  address : String
  deriving DecidableEq, Repr

/-- Value `MaxTransactionCursor` (config.go:78): `math.MaxUint32`. -/
def maxTransactionCursor : Nat := 2 ^ 32 - 1

/-- Method `genIndexKey` (transaction_manager.go:267-269). -/
def genIndexKey (queryType address : String) : String :=
  queryType ++ ":" ++ address

/-- Method `genIndexKeyByTrans` (transaction_manager.go:272-274). -/
def genIndexKeyByTrans (tr : TransRec) : String :=
  genIndexKey tr.queryType tr.address

/-- The manager's mutable state: `transactions` (by id), `index` (by
(queryType, address) key) and the id cursor. -/
structure TMState where
  transactions : Nat → Option TransRec
  index : String → Option TransRec
  cursor : Nat

/-- Fresh manager (newTransactionManager). -/
def TMState.init : TMState := ⟨fun _ => none, fun _ => none, 0⟩

/-- Method `transactionManager.insert` (transaction_manager.go:277-283):
store under the transaction id and under the index key. -/
def tmInsert (st : TMState) (tr : TransRec) : TMState :=
  { st with
    transactions := fun n => if n = tr.id then some tr else st.transactions n,
    index := fun s =>
      if s = genIndexKeyByTrans tr then some tr else st.index s }

/-- Method `transactionManager.delete` (transaction_manager.go:286-297):
look the transaction up by id; if present, remove it from both maps. -/
def tmDelete (st : TMState) (transID : Nat) : TMState :=
  match st.transactions transID with
  | none => st
  | some tr =>
    { st with
      transactions := fun n => if n = tr.id then none else st.transactions n,
      index := fun s =>
        if s = genIndexKeyByTrans tr then none else st.index s }

/-- Methods `genTransID` + `sendQuery`
(transaction_manager.go:257-263, 380-392) run sequentially: the gates
(self target, an equivalent (type, address) query already indexed,
blacklisted remote) drop the call; otherwise the cursor advances and the
queued query is (eventually, in `query`) inserted into both maps.  The
self and blacklist tests read components outside this state and enter as
boolean inputs. -/
def tmSendQuery (st : TMState) (queryType address : String)
    (isSelf blacklisted : Bool) : TMState :=
  if isSelf ∨ (st.index (genIndexKey queryType address)).isSome ∨ blacklisted
  then st
  else
    let cursor := (st.cursor + 1) % maxTransactionCursor
    tmInsert { st with cursor := cursor } ⟨cursor, queryType, address⟩

/-- The operations of claim C9. -/
inductive TMOp where
  | send (queryType address : String) (isSelf blacklisted : Bool)
  | del (transID : Nat)

def applyTMOp (st : TMState) : TMOp → TMState
  | .send qt addr s b => tmSendQuery st qt addr s b
  | .del transID => tmDelete st transID

def applyTMOps (ops : List TMOp) : TMState :=
  ops.foldl applyTMOp TMState.init

/-- Inductive invariant of the manager: live transactions are stored
under their own id, each live transaction's index key is present in the
index, and distinct live transactions have distinct index keys. -/
@[reducible]
def tmWellFormed (st : TMState) : Prop :=
  (∀ n tr, st.transactions n = some tr → tr.id = n) ∧
  (∀ n tr, st.transactions n = some tr →
    (st.index (genIndexKeyByTrans tr)).isSome = true) ∧
  (∀ n1 n2 t1 t2, st.transactions n1 = some t1 →
    st.transactions n2 = some t2 → n1 ≠ n2 →
    genIndexKeyByTrans t1 ≠ genIndexKeyByTrans t2)

/-- Concrete operation sequence for the C9 witness. -/
def tmOpsSample : List TMOp :=
  [.send "ping" "a:1" false false, .send "find_node" "a:1" false false]

/-! ## The per-transaction query driver (transaction_manager.go:344-370) -/

/-- Environment behavior at one attempt of the retry loop: the UDP write
fails, the response signal arrives within 15 s, or the 15 s timer fires
first. -/
inductive AttemptOutcome where
  | sendErr
  | response
  | timeout
  deriving DecidableEq, Repr

/-- Observable outcome of the loop: how many UDP sends were performed
and whether `success` was set. -/
structure QueryRun where
  sends : Nat
  success : Bool
  deriving DecidableEq, Repr

/-- Retry loop of `transactionManager.query`
(transaction_manager.go:352-364), verbatim including the Go pitfall:
`break` inside the `select`'s response case exits only the select, so
after a response the for loop still proceeds to the next attempt and
sends again.  A send error does break the for loop.  `outs.getD i
.timeout` is the environment's behavior at attempt i. -/
def queryAttempts (outs : List AttemptOutcome) :
    Nat → Nat → QueryRun → QueryRun
  | 0, _, acc => acc
  | fuel+1, i, acc =>
    match outs.getD i .timeout with
    | .sendErr => ⟨acc.sends + 1, acc.success⟩
    | .response => queryAttempts outs fuel (i+1) ⟨acc.sends + 1, true⟩
    | .timeout => queryAttempts outs fuel (i+1) ⟨acc.sends + 1, acc.success⟩

def queryLoop (tryN : Nat) (outs : List AttemptOutcome) : QueryRun :=
  queryAttempts outs tryN 0 ⟨0, false⟩

/-- Method `transactionManager.query` (transaction_manager.go:344-370):
insert the transaction into both maps, run the retry loop, blacklist
the endpoint and remove the node from the routing table when no attempt
succeeded and the node has a known id, then (deferred) delete the
transaction from both maps.  The routing table appears through its
`cachedNodes` cache, as in `World`. -/
def queryDriver (st : TMState) (bl : Blacklist)
    (cached : List (String × String)) (tr : TransRec) (nodeHasID : Bool)
    (addr : UDPAddr) (tryN : Nat) (outs : List AttemptOutcome) :
    TMState × Blacklist × List (String × String) × QueryRun :=
  let st := tmInsert st tr
  let run := queryLoop tryN outs
  let (bl, cached) :=
    if run.success = false ∧ nodeHasID = true then
      (bl.insert addr.ip addr.port, removeCachedByAddr cached addr.addrString)
    else (bl, cached)
  (tmDelete st tr.id, bl, cached, run)

/-- Concrete transaction for the C3 evaluation. -/
def trSample : TransRec := ⟨1, "ping", "203.0.113.9:6881"⟩

/-! ## Routing table trie (routingtable.go)

Ids are 160-bit values as `Nat`, read MSB-first; `bitmap.Bit i` is bit
`159 - i`.  Prefixes are explicit bit lists, as the `prefix` bitmaps of
the buckets are.  (Bitmap and keyedDeque are not under src/ and are
modelled from the spec §4.2/§4.7.) -/

/-- Constant `maxPrefixLength` (routingtable.go:11). -/
def maxPrefixLength : Nat := 160

/-- A routing-table entry: id, the address string that keys
`cachedNodes`, and the `lastActive` time that orders candidates in
`Replace`. -/
structure GNode where
  id : Nat
  addr : String
  lastActive : Nat
  deriving DecidableEq, Repr

/-- Reading `bitmap.Bit i` of a node id (0 is the most significant of
the 160 bits). -/
def idBit (id : Nat) (i : Nat) : Bool :=
  Nat.testBit id (maxPrefixLength - 1 - i)

/-- The first p bits of an id, MSB-first. -/
def idBits (id : Nat) (p : Nat) : List Bool :=
  (List.range p).map (idBit id)

/-- Test `prefix.Compare(id, p) == 0` (routingtable.go:301): the top p
bits agree.  Modelled from the spec §4.2 ("compare(other, p) returns
the sign of the unsigned integer difference of the top p bits"). -/
def prefixMatches (pfx : List Bool) (id : Nat) (p : Nat) : Bool :=
  pfx.take p == idBits id p

/-- The trie: internal nodes have exactly two children (Split sets
both); leaves own one bucket (its prefix bitmap, nodes deque and
candidates deque). -/
inductive RTNode where
  | leaf (pfx : List Bool) (nodes : List GNode) (candidates : List GNode)
  | branch (left right : RTNode)
  deriving DecidableEq, Repr

/-- Method `kbucket.Insert` (routingtable.go:111-118): `isNew` iff the
id keyed no existing entry; `keyedDeque.Push` is modelled from the spec
(§4.7: push to the MRU front, dedupe by the id key). -/
def bucketInsert (nodes : List GNode) (nd : GNode) : List GNode × Bool :=
  let isNew := ! nodes.any (fun x => x.id == nd.id)
  (nd :: nodes.filter (fun x => x.id ≠ nd.id), isNew)

/-- Method `routingTableNode.Split` (routingtable.go:208-237): a no-op
at prefix length 160; otherwise two children whose prefixes extend the
parent's by bit 0 / bit 1 (`newBitmapFrom` preserves the top bits,
`Set(prefixLen)` sets the new bit of the right child), with nodes and
candidates partitioned by bit `prefixLen` of their ids in deque order. -/
def splitLeaf (pfx : List Bool) (nodes candidates : List GNode) : RTNode :=
  if pfx.length = maxPrefixLength then .leaf pfx nodes candidates
  else
    .branch
      (.leaf (pfx ++ [false])
        (nodes.filter (fun nd => idBit nd.id pfx.length == false))
        (candidates.filter (fun nd => idBit nd.id pfx.length == false)))
      (.leaf (pfx ++ [true])
        (nodes.filter (fun nd => idBit nd.id pfx.length == true))
        (candidates.filter (fun nd => idBit nd.id pfx.length == true)))

/-- The walk of `routingTable.Insert` (routingtable.go:285-326).
`plen` is the loop counter `prefixLen`; the fuel starts at
`maxPrefixLength`, matching the bound `prefixLen <= 160`, and running
out is the loop's fall-through `return false`.  The result's second
component is `some isNew` when a bucket insertion happened (the caller
then publishes the node in the caches) and `none` when the node became
a candidate or the loop fell through.  The unreachable arm after a
no-op Split (only possible at depth 160, which the loop bound already
excludes) returns unchanged. -/
def rtInsertLoop (k : Nat) (nd : GNode) :
    Nat → Nat → RTNode → RTNode × Option Bool
  | _, 0, t => (t, none)
  | plen, fuel+1, .branch l r =>
    if idBit nd.id (plen - 1) then
      let (r', res) := rtInsertLoop k nd (plen+1) fuel r
      (.branch l r', res)
    else
      let (l', res) := rtInsertLoop k nd (plen+1) fuel l
      (.branch l' r, res)
  | plen, fuel+1, .leaf pfx nodes candidates =>
    if nodes.length < k ∨ nodes.any (fun x => x.id == nd.id) then
      let (nodes', isNew) := bucketInsert nodes nd
      (.leaf pfx nodes' candidates, some isNew)
    else if prefixMatches pfx nd.id (plen - 1) then
      match splitLeaf pfx nodes candidates with
      | .branch l r =>
        if idBit nd.id (plen - 1) then
          let (r', res) := rtInsertLoop k nd (plen+1) fuel r
          (.branch l r', res)
        else
          let (l', res) := rtInsertLoop k nd (plen+1) fuel l
          (.branch l' r, res)
      | t' => (t', none)
    else
      let candidates' := candidates ++ [nd]
      let candidates'' :=
        if candidates'.length > k then candidates'.drop 1 else candidates'
      (.leaf pfx nodes candidates'', none)

/-- The routing table: the trie root and the `cachedNodes` cache
(address ↦ node).  `cachedKBuckets` only serves the refresh scan and is
not modelled. -/
structure RoutingTable where
  root : RTNode
  cachedNodes : List (String × GNode)

/-- Fresh table (newRoutingTable, routingtable.go:251-266): one leaf
with the empty prefix (`newBitmap(0)`). -/
def RoutingTable.empty : RoutingTable := ⟨.leaf [] [] [], []⟩

/-- Cache write `cachedNodes.Set` (replace or add). -/
def setCached (cached : List (String × GNode)) (key : String) (nd : GNode) :
    List (String × GNode) :=
  (key, nd) :: cached.filter (fun p => p.1 ≠ key)

/-- Method `routingTable.Insert` (routingtable.go:270-328): the
blacklist gate reads the separate blackList component and enters as a
boolean; the `MaxNodes` gate compares the cache size. -/
def rtInsert (rt : RoutingTable) (k maxNodes : Nat) (blacklisted : Bool)
    (nd : GNode) : RoutingTable × Bool :=
  if blacklisted ∨ maxNodes ≤ rt.cachedNodes.length then (rt, false)
  else
    match rtInsertLoop k nd 1 maxPrefixLength rt.root with
    | (root', some isNew) =>
      (⟨root', setCached rt.cachedNodes nd.addr nd⟩, isNew)
    | (root', none) => (⟨root', rt.cachedNodes⟩, false)

/-- Placement step of `kbucket.Replace` (routingtable.go:132-142):
insert the promoted candidate before the first node whose `lastActive`
is after its own, or append. -/
def insertByLastActive (c : GNode) : List GNode → List GNode
  | [] => [c]
  | x :: xs =>
    if c.lastActive < x.lastActive then c :: x :: xs
    else x :: insertByLastActive c xs

/-- Method `kbucket.Replace` (routingtable.go:122-143): delete the
node; if candidates exist, pop the back candidate and place it in
`nodes` by `lastActive`. -/
def bucketReplace (nodes candidates : List GNode) (nd : GNode) :
    List GNode × List GNode :=
  let nodes' := nodes.filter (fun x => x.id ≠ nd.id)
  match candidates.getLast? with
  | none => (nodes', candidates)
  | some c => (insertByLastActive c nodes', candidates.dropLast)

/-- The walk of `GetNodeKBucktByID` + `Remove`
(routingtable.go:362-404) in one pass: descend by the id's bits to the
owning leaf; when a node with the id is there, run `Replace` and report
it (so the caller can delete its address from `cachedNodes`). -/
def rtRemoveLoop (id : Nat) : Nat → Nat → RTNode → RTNode × Option GNode
  | _, 0, t => (t, none)
  | plen, fuel+1, .branch l r =>
    if idBit id (plen - 1) then
      let (r', res) := rtRemoveLoop id (plen+1) fuel r
      (.branch l r', res)
    else
      let (l', res) := rtRemoveLoop id (plen+1) fuel l
      (.branch l' r, res)
  | _, _+1, .leaf pfx nodes candidates =>
    match nodes.find? (fun x => x.id == id) with
    | none => (.leaf pfx nodes candidates, none)
    | some nd =>
      let (nodes', candidates') := bucketReplace nodes candidates nd
      (.leaf pfx nodes' candidates', some nd)

/-- Method `routingTable.Remove` (routingtable.go:397-404). -/
def rtRemove (rt : RoutingTable) (id : Nat) : RoutingTable :=
  match rtRemoveLoop id 1 maxPrefixLength rt.root with
  | (root', some nd) =>
    ⟨root', rt.cachedNodes.filter (fun p => p.1 ≠ nd.addr)⟩
  | (root', none) => ⟨root', rt.cachedNodes⟩

/-- A standalone `Split` of the leaf owning `id` (`Split` is invoked
from `Insert`; exposed so operation sequences with explicit splits are
covered). -/
def rtSplitLoop (id : Nat) : Nat → Nat → RTNode → RTNode
  | _, 0, t => t
  | plen, fuel+1, .branch l r =>
    if idBit id (plen - 1) then .branch l (rtSplitLoop id (plen+1) fuel r)
    else .branch (rtSplitLoop id (plen+1) fuel l) r
  | _, _+1, .leaf pfx nodes candidates => splitLeaf pfx nodes candidates

def rtSplitAt (rt : RoutingTable) (id : Nat) : RoutingTable :=
  ⟨rtSplitLoop id 1 maxPrefixLength rt.root, rt.cachedNodes⟩

/-- The operations of claim C8. -/
inductive RTOp where
  | insert (nd : GNode) (blacklisted : Bool)
  | remove (id : Nat)
  | split (id : Nat)

def applyRTOp (k maxNodes : Nat) (rt : RoutingTable) : RTOp → RoutingTable
  | .insert nd bl => (rtInsert rt k maxNodes bl nd).1
  | .remove id => rtRemove rt id
  | .split id => rtSplitAt rt id

def applyRTOps (k maxNodes : Nat) (ops : List RTOp) : RoutingTable :=
  ops.foldl (applyRTOp k maxNodes) RoutingTable.empty

/-- The leaf buckets of the trie: (prefix, nodes, candidates). -/
def leafBuckets : RTNode → List (List Bool × List GNode × List GNode)
  | .leaf pfx nodes candidates => [(pfx, nodes, candidates)]
  | .branch l r => leafBuckets l ++ leafBuckets r

/-- The bucket-prefix invariant on the subtree at path `path`: every
leaf's stored prefix bitmap equals its path from the root, and every
node and candidate in a leaf agrees with the leaf's prefix on the first
p bits of its id. -/
def goodTree : List Bool → RTNode → Prop
  | path, .leaf pfx nodes candidates =>
    pfx = path ∧
    (∀ nd ∈ nodes, idBits nd.id pfx.length = pfx) ∧
    (∀ nd ∈ candidates, idBits nd.id pfx.length = pfx)
  | path, .branch l r =>
    goodTree (path ++ [false]) l ∧ goodTree (path ++ [true]) r

/-- Concrete node for the C8 witness. -/
def gnSample : GNode := ⟨3, "n1", 0⟩

/-- Concrete driver run for C3: a response arrives during the first of
two attempts. -/
def qdRespRun : TMState × Blacklist × List (String × String) × QueryRun :=
  queryDriver TMState.init ⟨[]⟩ [("203.0.113.9:6881", idX)] trSample
    true addrBound 2 [.response]

/-- Concrete driver run for C3: both attempts time out. -/
def qdTimeoutRun : TMState × Blacklist × List (String × String) × QueryRun :=
  queryDriver TMState.init ⟨[]⟩ [("203.0.113.9:6881", idX)] trSample
    true addrBound 2 [.timeout, .timeout]

end DhtCrawler

namespace DhtCrawler

/-- C7 helper: looking up a key in a filtered list that drops that key
yields none. -/
theorem lookup_filter_ne (l : List (String × String)) (key : String) :
    (l.filter (fun p => p.1 ≠ key)).lookup key = none := by
  induction l with
  | nil => rfl
  | cons hd tl ih =>
    by_cases h : hd.1 = key
    · simpa [List.filter, h] using ih
    · have hne : (key == hd.1) = false := by
        simp [BEq.beq]
        intro hcon
        exact absurd hcon.symm h
      simp [List.filter, h, List.lookup, hne, ih]
      exact fun a b _ h1 h2 => h1 h2.symm

/-- C7 helper: looking up a key just deleted yields none. -/
theorem TokenManager.get_delete_self (tm : TokenManager) (key : String) :
    (tm.Delete key).Get key = none :=
  lookup_filter_ne tm.tokens key

/-- C7: `tokenManager.check` returns true iff a token is stored for the
address's IP whose data equals the given string, and after a check that
returned true a repeated check with the same string returns false (the
entry was deleted), so a check returns true at most once per mint. -/
theorem C7_token_check_single_use (tm : TokenManager) (addr : UDPAddr)
    (t : String) :
    ((tm.check addr t).2 = true ↔ tm.Get addr.ip = some t) ∧
      ((tm.check addr t).2 = true →
        ((tm.check addr t).1.check addr t).2 = false) := by
  constructor
  · cases h : tm.Get addr.ip with
    | none => simp [TokenManager.check, h]
    | some d =>
      simp only [TokenManager.check, h, Option.isSome_some, Bool.true_and,
        Option.getD_some, beq_iff_eq, Option.some_inj]
      exact eq_comm
  · intro htrue
    have hdel : (tm.check addr t).1 = tm.Delete addr.ip := by
      cases h : tm.Get addr.ip with
      | none => simp [TokenManager.check, h] at htrue
      | some d => simp [TokenManager.check, h]
    rw [hdel]
    simp [TokenManager.check, TokenManager.get_delete_self]

/-- Witness for C7 at a concrete state: the first check succeeds and the
immediately repeated check fails. -/
theorem C7_token_check_single_use_witness :
    (tmSample.check addrSample "tok").2 = true ∧
      ((tmSample.check addrSample "tok").1.check addrSample "tok").2 = false :=
  have h1 : (tmSample.check addrSample "tok").2 = true :=
    (C7_token_check_single_use tmSample addrSample "tok").1.mpr (by decide)
  ⟨h1, (C7_token_check_single_use tmSample addrSample "tok").2 h1⟩

/-- C10: any check against an IP with a stored token deletes the entry,
whether or not the supplied token matches; in particular a check with an
arbitrary string followed by a check with the stored token returns false
for the second check. -/
theorem C10_check_always_deletes (tm : TokenManager) (addr : UDPAddr)
    (t t' : String) (h : tm.Get addr.ip = some t) :
    (tm.check addr t').1.Get addr.ip = none ∧
      ((tm.check addr t').1.check addr t).2 = false := by
  have hdel : (tm.check addr t').1 = tm.Delete addr.ip := by
    simp [TokenManager.check, h]
  rw [hdel]
  exact ⟨TokenManager.get_delete_self tm addr.ip,
    by simp [TokenManager.check, TokenManager.get_delete_self]⟩

/-- Witness for C10 at a concrete state: a check with the wrong string
removes the entry and the later check with the right token fails. -/
theorem C10_check_always_deletes_witness :
    (tmSample.check addrSample "wrong").1.Get addrSample.ip = none ∧
      ((tmSample.check addrSample "wrong").1.check addrSample "tok").2 = false :=
  C10_check_always_deletes tmSample addrSample "tok" "wrong" (by decide)

/-- C2: `DHTQueryResponse.ToPayload` does set `y` to `"r"`, but it emits
the response arguments under key `"e"`, and no `"r"` key exists in the
produced dictionary — contradicting BEP-5 and the claim (the spec itself
flags this as a bug in the source). -/
theorem C2_response_args_under_e (r : DHTQueryResponse) :
    r.ToPayload.lookup "y" = some (.str "r") ∧
      r.ToPayload.lookup "r" = none ∧
      r.ToPayload.lookup "e" = some (.dict r.Arguments) :=
  ⟨rfl, rfl, rfl⟩

/-- C4 counterexample: an inbound request whose `a` field is a string is
answered with error code `protocolError` = 203, not 201 as claimed. -/
theorem C4_counterexample_203_not_201 :
    handleRequestChecks wSample addrBound plBadA =
      .ok (wSample, [.errorResp "aa" protocolError "invalid key type"],
        none) ∧
      protocolError ≠ generalError :=
  ⟨rfl, by decide⟩

/-- C4 amended: for an inbound request whose `t` and `q` fields are
strings but whose `a` field is missing or not a dictionary, the
dispatcher replies with an error of code 203 (protocol), carrying
`ParseKeys`' message.  (When `q` itself is not a string the handler
panics instead — that is C5.) -/
theorem C4_amended_bad_a_yields_203 (w : World) (addr : UDPAddr)
    (payload : List (String × BVal)) (ts qs : String)
    (ht : payload.lookup "t" = some (.str ts))
    (hq : payload.lookup "q" = some (.str qs))
    (ha : ∀ d, payload.lookup "a" ≠ some (.dict d)) :
    handleRequestChecks w addr payload =
      .ok (w, [.errorResp ts protocolError
        (if (payload.lookup "a").isNone then "lack of key"
         else "invalid key type")], none) := by
  cases hla : payload.lookup "a" with
  | none =>
    simp [handleRequestChecks, NewDHTQueryFromPayload, ParseKeys, ParseKey,
      ht, hq, hla, goAssertStr, Bind.bind, Except.bind, Pure.pure, Except.pure]
  | some v =>
    cases v with
    | dict d => exact absurd hla (ha d)
    | int n =>
      simp [handleRequestChecks, NewDHTQueryFromPayload, ParseKeys, ParseKey,
        ht, hq, hla, goAssertStr, Bind.bind, Except.bind, Pure.pure, Except.pure]
    | str s =>
      simp [handleRequestChecks, NewDHTQueryFromPayload, ParseKeys, ParseKey,
        ht, hq, hla, goAssertStr, Bind.bind, Except.bind, Pure.pure, Except.pure]
    | list l =>
      simp [handleRequestChecks, NewDHTQueryFromPayload, ParseKeys, ParseKey,
        ht, hq, hla, goAssertStr, Bind.bind, Except.bind, Pure.pure, Except.pure]

/-- Witness for the amended C4 at a concrete request. -/
theorem C4_amended_bad_a_yields_203_witness :
    handleRequestChecks wSample addrBound plBadA =
      .ok (wSample, [.errorResp "aa" protocolError
        (if (plBadA.lookup "a").isNone then "lack of key"
         else "invalid key type")], none) :=
  C4_amended_bad_a_yields_203 wSample addrBound plBadA "aa" "ping" rfl rfl
    (fun d h => by
      rw [show plBadA.lookup "a" = some (.str "oops") from rfl] at h
      exact BVal.noConfusion (Option.some.inj h))

/-- C5: the handler does abort on failing type assertions.  A request
datagram with no `q` field panics inside `NewDHTQueryFromPayload`
(part_001:105), and an `announce_peer` request with a valid token whose
`implied_port` is a string panics at the `impliedPort.(int)` assertion
(krpc.go:292).  There is no `recover`, so the claim "never aborts"
fails on the code. -/
theorem C5_mistyped_fields_panic :
    handleRequestChecks wSample addrBound plNoQ =
        .error .interfaceConversion ∧
      announcePeerCase wSample addrSample qImpliedStr idY 8 =
        .error .interfaceConversion :=
  ⟨rfl, rfl⟩

/-- C6 counterexample: the id-mismatch branch blacklists the exact
endpoint `(203.0.113.9, 6881)`, not a wildcard `(203.0.113.9, -1)` —
the blacklist does not match the same IP on another port. -/
theorem C6_counterexample_no_wildcard :
    handleRequestChecks wSample addrBound plPingY =
      .ok (wAfterMismatch, [.errorResp "aa" protocolError "invalid id"],
        none) ∧
      wAfterMismatch.blackList.entries = [("203.0.113.9", 6881)] ∧
      wAfterMismatch.blackList.isIn "203.0.113.9" 9999 = false :=
  ⟨rfl, rfl, by decide⟩

/-- C6 amended: when a request arrives from an address bound to a
different id, the system blacklists the sender's exact (IP, port)
endpoint (not a wildcard), removes the node bound to that address from
the routing table, and replies with protocol error 203. -/
theorem C6_amended_exact_port_blacklist (w : World) (addr : UDPAddr)
    (payload : List (String × BVal)) (ts qs boundId nid : String)
    (args : List (String × BVal))
    (ht : payload.lookup "t" = some (.str ts))
    (hq : payload.lookup "q" = some (.str qs))
    (ha : payload.lookup "a" = some (.dict args))
    (hid : args.lookup "id" = some (.str nid))
    (hlen : nid.length = 20)
    (hself : nid ≠ w.localID)
    (hbound : w.cachedNodes.lookup addr.addrString = some boundId)
    (hne : boundId ≠ nid) :
    handleRequestChecks w addr payload =
      .ok ({ w with blackList := w.blackList.insert addr.ip addr.port,
                    cachedNodes := removeCachedByAddr w.cachedNodes
                      addr.addrString },
        [.errorResp ts protocolError "invalid id"], none) ∧
      (w.blackList.insert addr.ip addr.port).isIn addr.ip addr.port = true ∧
      (removeCachedByAddr w.cachedNodes addr.addrString).lookup
        addr.addrString = none := by
  refine ⟨?_, ?_, lookup_filter_ne w.cachedNodes addr.addrString⟩
  · simp [handleRequestChecks, NewDHTQueryFromPayload, ParseKeys, ParseKey,
      ht, hq, ha, hid, goAssertStr, hself, hlen, hbound, hne,
      Bind.bind, Except.bind, Pure.pure, Except.pure]
  · simp [Blacklist.insert, Blacklist.isIn]

/-- C1: `getTopK` (hence `GetNeighbors`) is not a top-k selection.
With target id 0, cached nodes at XOR distances 5, 1, 3 (iterated in
that order) and k = 2, the code returns the nodes at distances 1 and 5:
the node at distance 3 — closer than 5 — is rejected, because the
admission test reads `topkHeap[len-1]`, a leaf of the max-heap (here
the minimum), instead of the root. -/
theorem C1_getTopK_not_the_k_smallest :
    GetNeighbors [cnA, cnB, cnC] 0 2 = [cnB, cnA] ∧
      cnC ∉ GetNeighbors [cnA, cnB, cnC] 0 2 ∧
      Nat.xor 0 cnC.id < Nat.xor 0 cnA.id := by
  refine ⟨by decide, by decide, by decide⟩

/-- C3: the driver does not stop sending once the response signal is
received — `break` exits only the `select`, so with try = 2 and a
response in the first attempt two sends are performed (first conjunct;
the claim implies one).  The rest of the claim holds and is evaluated
alongside: the transaction is deleted from both indexes on return
(conjuncts 2-3), a successful run does not blacklist or evict
(conjuncts 4-5), and an all-timeouts run against a node with a known id
blacklists the endpoint and evicts the address (conjuncts 6-8). -/
theorem C3_driver_keeps_sending_after_response :
    qdRespRun.2.2.2 = ⟨2, true⟩ ∧
      qdRespRun.1.transactions 1 = none ∧
      qdRespRun.1.index "ping:203.0.113.9:6881" = none ∧
      qdRespRun.2.1 = ⟨[]⟩ ∧
      qdRespRun.2.2.1 = [("203.0.113.9:6881", idX)] ∧
      qdTimeoutRun.2.2.2 = ⟨2, false⟩ ∧
      qdTimeoutRun.2.1 = ⟨[("203.0.113.9", 6881)]⟩ ∧
      qdTimeoutRun.2.2.1 = [] := by
  refine ⟨by decide, by decide, by decide, by decide, by decide, by decide,
    by decide, by decide⟩

/-- The fresh transaction manager is well formed. -/
theorem tmWellFormed_init : tmWellFormed TMState.init := by
  unfold tmWellFormed
  refine ⟨?_, ?_, ?_⟩
  · intro n tr h
    exact nomatch h
  · intro n tr h
    exact nomatch h
  · intro n1 n2 t1 t2 h1 h2 hne
    exact nomatch h1

/-- `sendQuery` (check-then-insert) preserves well-formedness. -/
theorem tmWellFormed_send (st : TMState) (qt addr : String)
    (s b : Bool) (h : tmWellFormed st) :
    tmWellFormed (tmSendQuery st qt addr s b) := by
  obtain ⟨h1, h2, h3⟩ := h
  unfold tmSendQuery
  split
  · exact ⟨h1, h2, h3⟩
  · rename_i hgate
    push_neg at hgate
    have hidx : st.index (genIndexKey qt addr) = none := by
      have := hgate.2.1
      simpa [Option.not_isSome_iff_eq_none] using this
    set c := (st.cursor + 1) % maxTransactionCursor with hc
    refine ⟨?_, ?_, ?_⟩
    · intro n tr htr
      simp only [tmInsert] at htr
      by_cases hn : n = c
      · subst hn
        simp at htr
        rw [← htr]
      · simpa [hn] using h1 n tr (by simpa [hn] using htr)
    · intro n tr htr
      simp only [tmInsert] at htr ⊢
      by_cases hn : n = c
      · subst hn
        simp at htr
        subst htr
        simp
      · have htr' : st.transactions n = some tr := by simpa [hn] using htr
        by_cases hk : genIndexKeyByTrans tr =
            genIndexKeyByTrans ⟨c, qt, addr⟩
        · simp [hk]
        · simpa [hk] using h2 n tr htr'
    · intro n1 n2 t1 t2 e1 e2 hn hkeq
      simp only [tmInsert] at e1 e2
      by_cases hn1 : n1 = c <;> by_cases hn2 : n2 = c
      · exact hn (hn1.trans hn2.symm)
      · have ht1 : t1 = ⟨c, qt, addr⟩ := by
          have := e1; subst hn1; simpa using this.symm
        have ht2 : st.transactions n2 = some t2 := by simpa [hn2] using e2
        have hkey2 := h2 n2 t2 ht2
        rw [ht1] at hkeq
        have : genIndexKeyByTrans t2 = genIndexKey qt addr := by
          simpa [genIndexKeyByTrans] using hkeq.symm
        rw [this, hidx] at hkey2
        exact nomatch hkey2
      · have ht2 : t2 = ⟨c, qt, addr⟩ := by
          have := e2; subst hn2; simpa using this.symm
        have ht1 : st.transactions n1 = some t1 := by simpa [hn1] using e1
        have hkey1 := h2 n1 t1 ht1
        rw [ht2] at hkeq
        have : genIndexKeyByTrans t1 = genIndexKey qt addr := by
          simpa [genIndexKeyByTrans] using hkeq
        rw [this, hidx] at hkey1
        exact nomatch hkey1
      · exact h3 n1 n2 t1 t2 (by simpa [hn1] using e1)
          (by simpa [hn2] using e2) hn hkeq

/-- `delete` preserves well-formedness. -/
theorem tmWellFormed_delete (st : TMState) (transID : Nat)
    (h : tmWellFormed st) : tmWellFormed (tmDelete st transID) := by
  obtain ⟨h1, h2, h3⟩ := h
  unfold tmDelete
  cases hl : st.transactions transID with
  | none => exact ⟨h1, h2, h3⟩
  | some tr0 =>
    have hid0 : tr0.id = transID := h1 transID tr0 hl
    refine ⟨?_, ?_, ?_⟩
    · intro n tr htr
      simp only [] at htr
      by_cases hn : n = tr0.id
      · simp [hn] at htr
      · exact h1 n tr (by simpa [hn] using htr)
    · intro n tr htr
      by_cases hn : n = tr0.id
      · simp [hn] at htr
      · have htr' : st.transactions n = some tr := by simpa [hn] using htr
        have hne : n ≠ transID := fun hcon => hn (hcon.trans hid0.symm)
        have hkne : genIndexKeyByTrans tr ≠ genIndexKeyByTrans tr0 :=
          h3 n transID tr tr0 htr' hl hne
        simpa [hkne] using h2 n tr htr'
    · intro n1 n2 t1 t2 e1 e2 hn
      by_cases hn1 : n1 = tr0.id
      · simp [hn1] at e1
      · by_cases hn2 : n2 = tr0.id
        · simp [hn2] at e2
        · exact h3 n1 n2 t1 t2 (by simpa [hn1] using e1)
            (by simpa [hn2] using e2) hn

/-- Folding any operation list keeps the manager well formed. -/
theorem tmWellFormed_foldl (ops : List TMOp) :
    ∀ st, tmWellFormed st → tmWellFormed (ops.foldl applyTMOp st) := by
  induction ops with
  | nil => exact fun st h => h
  | cons op rest ih =>
    intro st h
    refine ih (applyTMOp st op) ?_
    cases op with
    | send qt addr s b => exact tmWellFormed_send st qt addr s b h
    | del transID => exact tmWellFormed_delete st transID h

theorem tmWellFormed_apply (ops : List TMOp) :
    tmWellFormed (applyTMOps ops) :=
  tmWellFormed_foldl ops TMState.init tmWellFormed_init

/-- C9: after any sequence of sendQuery/insert/delete operations, two
distinct live transactions addressed to the same remote have different
query types — `sendQuery` drops a call whenever an equivalent
(queryType, address) transaction is already indexed. -/
theorem C9_live_same_address_distinct_types (ops : List TMOp)
    (n1 n2 : Nat) (t1 t2 : TransRec)
    (e1 : (applyTMOps ops).transactions n1 = some t1)
    (e2 : (applyTMOps ops).transactions n2 = some t2)
    (hne : n1 ≠ n2) (haddr : t1.address = t2.address) :
    t1.queryType ≠ t2.queryType := by
  obtain ⟨_, _, w3⟩ := tmWellFormed_apply ops
  intro hq
  exact (w3 n1 n2 t1 t2 e1 e2 hne) (by
    unfold genIndexKeyByTrans genIndexKey
    rw [hq, haddr])

/-- Witness for C9: two concrete sendQuery calls to the same remote
leave two live transactions, necessarily of different types. -/
theorem C9_live_same_address_distinct_types_witness :
    (applyTMOps tmOpsSample).transactions 1 =
        some ⟨1, "ping", "a:1"⟩ ∧
      (applyTMOps tmOpsSample).transactions 2 =
        some ⟨2, "find_node", "a:1"⟩ ∧
      (TransRec.mk 1 "ping" "a:1").queryType ≠
        (TransRec.mk 2 "find_node" "a:1").queryType :=
  ⟨by decide, by decide,
    C9_live_same_address_distinct_types tmOpsSample 1 2
      ⟨1, "ping", "a:1"⟩ ⟨2, "find_node", "a:1"⟩ (by decide) (by decide)
      (by decide) rfl⟩

/-! ### Routing-table bucket-prefix invariant (C8) -/

theorem idBits_succ (id p : Nat) :
    idBits id (p+1) = idBits id p ++ [idBit id p] := by
  simp [idBits, List.range_succ]

theorem length_idBits (id p : Nat) : (idBits id p).length = p := by
  simp [idBits]

/-- Members of `insertByLastActive c l` are `c` or members of `l`. -/
theorem mem_insertByLastActive (c x : GNode) :
    ∀ l : List GNode, x ∈ insertByLastActive c l → x = c ∨ x ∈ l := by
  intro l
  induction l with
  | nil =>
    intro h
    simpa [insertByLastActive] using h
  | cons hd tl ih =>
    intro h
    simp only [insertByLastActive] at h
    by_cases hcl : c.lastActive < hd.lastActive
    · simp only [hcl, if_true, List.mem_cons] at h
      rcases h with h | h | h
      · exact Or.inl h
      · exact Or.inr (by simp [h])
      · exact Or.inr (by simp [h])
    · simp only [hcl, if_false, List.mem_cons] at h
      rcases h with h | h
      · exact Or.inr (by simp [h])
      · rcases ih h with h' | h'
        · exact Or.inl h'
        · exact Or.inr (by simp [h'])

/-- `Split` preserves the invariant at the split leaf. -/
theorem goodTree_splitLeaf (path pfx : List Bool)
    (nodes cands : List GNode)
    (hg : goodTree path (.leaf pfx nodes cands)) :
    goodTree path (splitLeaf pfx nodes cands) := by
  obtain ⟨hpfx, hn, hc⟩ := hg
  unfold splitLeaf
  by_cases hlen : pfx.length = maxPrefixLength
  · simp only [hlen, if_true]
    exact ⟨hpfx, hn, hc⟩
  · simp only [hlen, if_false]
    have memcase : ∀ (b : Bool) (l : List GNode),
        (∀ nd ∈ l, idBits nd.id pfx.length = pfx) →
        ∀ nd ∈ l.filter (fun nd => idBit nd.id pfx.length == b),
          idBits nd.id (pfx ++ [b]).length = pfx ++ [b] := by
      intro b l hl nd hnd
      obtain ⟨hmem, hbit⟩ := List.mem_filter.mp hnd
      have hbit' : idBit nd.id pfx.length = b := by simpa using hbit
      simp [List.length_append, idBits_succ, hl nd hmem, hbit']
    exact ⟨⟨by rw [hpfx], memcase false nodes hn, memcase false cands hc⟩,
           ⟨by rw [hpfx], memcase true nodes hn, memcase true cands hc⟩⟩

/-- The insert walk preserves the invariant, provided the inserted
node's id follows the path down to the subtree (trivially true at the
root, where the path is empty). -/
theorem goodTree_insertLoop (k : Nat) (nd : GNode) :
    ∀ fuel path t, goodTree path t → idBits nd.id path.length = path →
      goodTree path (rtInsertLoop k nd (path.length + 1) fuel t).1 := by
  intro fuel
  induction fuel with
  | zero =>
    intro path t hg _
    simpa [rtInsertLoop] using hg
  | succ fuel ih =>
    intro path t hg hOn
    cases t with
    | branch l r =>
      obtain ⟨hl, hr⟩ := hg
      cases hb : idBit nd.id path.length with
      | true =>
        have hOn' : idBits nd.id (path ++ [true]).length = path ++ [true] := by
          simp [List.length_append, idBits_succ, hOn, hb]
        have hrec := ih (path ++ [true]) r hr hOn'
        simp only [List.length_append, List.length_cons, List.length_nil,
          Nat.zero_add] at hrec
        rcases hval : rtInsertLoop k nd (path.length + 1 + 1) fuel r
          with ⟨r', res⟩
        rw [hval] at hrec
        simp only [rtInsertLoop, Nat.add_sub_cancel, hb, if_true, hval]
        exact ⟨hl, hrec⟩
      | false =>
        have hOn' : idBits nd.id (path ++ [false]).length = path ++ [false] := by
          simp [List.length_append, idBits_succ, hOn, hb]
        have hrec := ih (path ++ [false]) l hl hOn'
        simp only [List.length_append, List.length_cons, List.length_nil,
          Nat.zero_add] at hrec
        rcases hval : rtInsertLoop k nd (path.length + 1 + 1) fuel l
          with ⟨l', res⟩
        rw [hval] at hrec
        simp only [rtInsertLoop, Nat.add_sub_cancel, hb, Bool.false_eq_true,
          if_false, hval]
        exact ⟨hrec, hr⟩
    | leaf pfx nodes cands =>
      obtain ⟨hpfx, hn, hc⟩ := hg
      simp only [rtInsertLoop, Nat.add_sub_cancel]
      by_cases h1 : nodes.length < k ∨ nodes.any (fun x => x.id == nd.id) = true
      · rw [if_pos h1]
        refine ⟨hpfx, ?_, hc⟩
        intro x hx
        simp only [bucketInsert, List.mem_cons] at hx
        rcases hx with hx | hx
        · subst hx
          rw [hpfx]
          exact hOn
        · exact hn x (List.mem_filter.mp hx).1
      · rw [if_neg h1]
        by_cases h2 : prefixMatches pfx nd.id path.length = true
        · rw [if_pos h2]
          have hsp := goodTree_splitLeaf path pfx nodes cands ⟨hpfx, hn, hc⟩
          cases hsplit : splitLeaf pfx nodes cands with
          | leaf pfx2 nodes2 cands2 =>
            rw [hsplit] at hsp
            exact hsp
          | branch lf rt =>
            rw [hsplit] at hsp
            obtain ⟨hlf, hrt⟩ := hsp
            cases hb : idBit nd.id path.length with
            | true =>
              have hOn' : idBits nd.id (path ++ [true]).length =
                  path ++ [true] := by
                simp [List.length_append, idBits_succ, hOn, hb]
              have hrec := ih (path ++ [true]) rt hrt hOn'
              simp only [List.length_append, List.length_cons,
                List.length_nil, Nat.zero_add] at hrec
              rcases hval : rtInsertLoop k nd (path.length + 1 + 1) fuel rt
                with ⟨r', res⟩
              rw [hval] at hrec
              simp only [hb, if_true, hval]
              exact ⟨hlf, hrec⟩
            | false =>
              have hOn' : idBits nd.id (path ++ [false]).length =
                  path ++ [false] := by
                simp [List.length_append, idBits_succ, hOn, hb]
              have hrec := ih (path ++ [false]) lf hlf hOn'
              simp only [List.length_append, List.length_cons,
                List.length_nil, Nat.zero_add] at hrec
              rcases hval : rtInsertLoop k nd (path.length + 1 + 1) fuel lf
                with ⟨l', res⟩
              rw [hval] at hrec
              simp only [hb, Bool.false_eq_true, if_false, hval]
              exact ⟨hrec, hrt⟩
        · rw [if_neg h2]
          refine ⟨hpfx, hn, ?_⟩
          intro x hx
          have hx' : x ∈ cands ++ [nd] := by
            by_cases hlen2 : (cands ++ [nd]).length > k
            · simp only [hlen2, if_true] at hx
              exact List.mem_of_mem_drop hx
            · simpa only [hlen2, if_false] using hx
          rcases List.mem_append.mp hx' with hmem | hmem
          · exact hc x hmem
          · rw [List.mem_singleton.mp hmem, hpfx]
            exact hOn

/-- The remove walk preserves the invariant. -/
theorem goodTree_removeLoop (id : Nat) :
    ∀ fuel path t, goodTree path t →
      goodTree path (rtRemoveLoop id (path.length + 1) fuel t).1 := by
  intro fuel
  induction fuel with
  | zero =>
    intro path t hg
    simpa [rtRemoveLoop] using hg
  | succ fuel ih =>
    intro path t hg
    cases t with
    | branch l r =>
      obtain ⟨hl, hr⟩ := hg
      cases hb : idBit id path.length with
      | true =>
        have hrec := ih (path ++ [true]) r hr
        simp only [List.length_append, List.length_cons, List.length_nil,
          Nat.zero_add] at hrec
        rcases hval : rtRemoveLoop id (path.length + 1 + 1) fuel r
          with ⟨r', res⟩
        rw [hval] at hrec
        simp only [rtRemoveLoop, Nat.add_sub_cancel, hb, if_true, hval]
        exact ⟨hl, hrec⟩
      | false =>
        have hrec := ih (path ++ [false]) l hl
        simp only [List.length_append, List.length_cons, List.length_nil,
          Nat.zero_add] at hrec
        rcases hval : rtRemoveLoop id (path.length + 1 + 1) fuel l
          with ⟨l', res⟩
        rw [hval] at hrec
        simp only [rtRemoveLoop, Nat.add_sub_cancel, hb, Bool.false_eq_true,
          if_false, hval]
        exact ⟨hrec, hr⟩
    | leaf pfx nodes cands =>
      obtain ⟨hpfx, hn, hc⟩ := hg
      simp only [rtRemoveLoop]
      cases hfind : nodes.find? (fun x => x.id == id) with
      | none => exact ⟨hpfx, hn, hc⟩
      | some nd0 =>
        simp only [bucketReplace]
        cases hlast : cands.getLast? with
        | none =>
          refine ⟨hpfx, ?_, hc⟩
          intro x hx
          exact hn x (List.mem_filter.mp hx).1
        | some c =>
          refine ⟨hpfx, ?_, ?_⟩
          · intro x hx
            rcases mem_insertByLastActive c x _ hx with hx' | hx'
            · subst hx'
              exact hc x (List.mem_of_mem_getLast? hlast)
            · exact hn x (List.mem_filter.mp hx').1
          · intro x hx
            exact hc x (List.dropLast_subset cands hx)

/-- The standalone split walk preserves the invariant. -/
theorem goodTree_splitWalk (id : Nat) :
    ∀ fuel path t, goodTree path t →
      goodTree path (rtSplitLoop id (path.length + 1) fuel t) := by
  intro fuel
  induction fuel with
  | zero =>
    intro path t hg
    simpa [rtSplitLoop] using hg
  | succ fuel ih =>
    intro path t hg
    cases t with
    | branch l r =>
      obtain ⟨hl, hr⟩ := hg
      cases hb : idBit id path.length with
      | true =>
        have hrec := ih (path ++ [true]) r hr
        simp only [List.length_append, List.length_cons, List.length_nil,
          Nat.zero_add] at hrec
        simp only [rtSplitLoop, Nat.add_sub_cancel, hb, if_true]
        exact ⟨hl, hrec⟩
      | false =>
        have hrec := ih (path ++ [false]) l hl
        simp only [List.length_append, List.length_cons, List.length_nil,
          Nat.zero_add] at hrec
        simp only [rtSplitLoop, Nat.add_sub_cancel, hb, Bool.false_eq_true,
          if_false]
        exact ⟨hrec, hr⟩
    | leaf pfx nodes cands =>
      simp only [rtSplitLoop]
      exact goodTree_splitLeaf path pfx nodes cands hg

/-- Every routing-table operation preserves the root invariant. -/
theorem goodTree_applyRTOp (k maxNodes : Nat) (rt : RoutingTable)
    (op : RTOp) (hg : goodTree [] rt.root) :
    goodTree [] (applyRTOp k maxNodes rt op).root := by
  cases op with
  | insert nd bl =>
    simp only [applyRTOp, rtInsert]
    by_cases hgate : (bl : Prop) ∨ maxNodes ≤ rt.cachedNodes.length
    · rw [if_pos hgate]
      exact hg
    · rw [if_neg hgate]
      have hloop : goodTree [] (rtInsertLoop k nd 1 maxPrefixLength rt.root).1 :=
        goodTree_insertLoop k nd maxPrefixLength [] rt.root hg rfl
      rcases hval : rtInsertLoop k nd 1 maxPrefixLength rt.root
        with ⟨root', res⟩
      rw [hval] at hloop
      rcases res with _ | isNew
      · exact hloop
      · exact hloop
  | remove id =>
    simp only [applyRTOp, rtRemove]
    have hloop : goodTree [] (rtRemoveLoop id 1 maxPrefixLength rt.root).1 :=
      goodTree_removeLoop id maxPrefixLength [] rt.root hg
    rcases hval : rtRemoveLoop id 1 maxPrefixLength rt.root with ⟨root', res⟩
    rw [hval] at hloop
    rcases res with _ | nd
    · exact hloop
    · exact hloop
  | split id =>
    simp only [applyRTOp, rtSplitAt]
    exact goodTree_splitWalk id maxPrefixLength [] rt.root hg

/-- The invariant holds after folding any operation list from the empty
table. -/
theorem goodTree_applyRTOps (k maxNodes : Nat) (ops : List RTOp) :
    goodTree [] (applyRTOps k maxNodes ops).root := by
  suffices h : ∀ rt, goodTree [] rt.root →
      goodTree [] (ops.foldl (applyRTOp k maxNodes) rt).root by
    refine h RoutingTable.empty ⟨rfl, ?_, ?_⟩
    · intro nd hmem
      exact absurd hmem (List.not_mem_nil nd)
    · intro nd hmem
      exact absurd hmem (List.not_mem_nil nd)
  induction ops with
  | nil => exact fun rt h => h
  | cons op rest ih =>
    intro rt h
    exact ih (applyRTOp k maxNodes rt op) (goodTree_applyRTOp k maxNodes rt op h)

/-- Projection of the invariant onto the leaf-bucket list. -/
theorem goodTree_leafBuckets :
    ∀ (t : RTNode) (path : List Bool), goodTree path t →
      ∀ b ∈ leafBuckets t,
        (∀ nd ∈ b.2.1, idBits nd.id b.1.length = b.1) ∧
        (∀ nd ∈ b.2.2, idBits nd.id b.1.length = b.1) := by
  intro t
  induction t with
  | leaf pfx nodes cands =>
    intro path hg b hb
    obtain ⟨hpfx, hn, hc⟩ := hg
    simp only [leafBuckets, List.mem_singleton] at hb
    subst hb
    exact ⟨hn, hc⟩
  | branch l r ihl ihr =>
    intro path hg b hb
    obtain ⟨hl, hr⟩ := hg
    rcases List.mem_append.mp hb with hb' | hb'
    · exact ihl (path ++ [false]) hl b hb'
    · exact ihr (path ++ [true]) hr b hb'

/-- C8: after any sequence of Insert, Remove and Split operations from
the empty table, every node stored in a leaf bucket whose prefix has
length p has an id whose first p bits equal the bucket's prefix bits
(and so do the bucket's candidates). -/
theorem C8_bucket_prefix_invariant (k maxNodes : Nat) (ops : List RTOp)
    (b : List Bool × List GNode × List GNode)
    (hb : b ∈ leafBuckets (applyRTOps k maxNodes ops).root)
    (nd : GNode) (hnd : nd ∈ b.2.1) :
    idBits nd.id b.1.length = b.1 :=
  (goodTree_leafBuckets (applyRTOps k maxNodes ops).root []
    (goodTree_applyRTOps k maxNodes ops) b hb).1 nd hnd

/-- Witness for C8: one insertion into the empty table; the root bucket
has the empty prefix, which every id trivially matches. -/
theorem C8_bucket_prefix_invariant_witness :
    (([], [gnSample], []) ∈
        leafBuckets (applyRTOps 8 5000 [.insert gnSample false]).root) ∧
      gnSample ∈ ([gnSample] : List GNode) ∧
      idBits gnSample.id ([] : List Bool).length = [] :=
  ⟨by decide, by decide,
    C8_bucket_prefix_invariant 8 5000 [.insert gnSample false]
      ([], [gnSample], []) (by decide) gnSample (by decide)⟩

/-- Witness for the amended C6 at a concrete request. -/
theorem C6_amended_exact_port_blacklist_witness :
    handleRequestChecks wSample addrBound plPingY =
      .ok ({ wSample with
              blackList := wSample.blackList.insert addrBound.ip
                addrBound.port,
              cachedNodes := removeCachedByAddr wSample.cachedNodes
                addrBound.addrString },
        [.errorResp "aa" protocolError "invalid id"], none) ∧
      (wSample.blackList.insert addrBound.ip addrBound.port).isIn
        addrBound.ip addrBound.port = true ∧
      (removeCachedByAddr wSample.cachedNodes addrBound.addrString).lookup
        addrBound.addrString = none :=
  C6_amended_exact_port_blacklist wSample addrBound plPingY "aa" "ping"
    idX idY [("id", .str idY)] rfl rfl rfl rfl (by decide) (by decide) rfl
    (by decide)

end DhtCrawler
